import Mathlib

/-!
Shallow embedding of `jahreswechsel.py` (plus its helper module
`gnucash_tools/business.py`) from the repository
`Bakan0/gnucash-happy-new-year`, together with proofs about the embedded
definitions.

Modelling conventions:
* GnuCash `GncNumeric` amounts are embedded as `Rat`: the script performs all
  balance arithmetic with `GNC_DENOM_AUTO, GNC_HOW_DENOM_EXACT`, i.e. exact
  rational arithmetic; `final_balance.num() != 0` is equivalent to the rational
  value being nonzero.
* Python dictionaries (insertion ordered) are embedded as association lists
  (`alistFind?` / `alistSet`).
* Mutation of GnuCash objects (accounts, transactions, commodity tables) is
  embedded by explicit state passing: every function returns the updated
  values of the objects the Python code mutates.
* Fallible Python code returns `Except PyErr` / carries an `Option PyErr`.
-/

/-- Commodity of a GnuCash book, identified by its `(namespace, mnemonic)`
pair; `fullname` stands for the remaining definition data that
`commodity.clone` copies verbatim into the destination book. -/
structure Commodity where
  namespace_ : String
  mnemonic : String
  fullname : String
deriving DecidableEq

/-- Commodity identity pair in the order used by `find_or_make_account`
(line 328-331 of `jahreswechsel.py`): `(mnemonic, namespace)`. -/
def commodPair (c : Commodity) : String × String :=
  (c.mnemonic, c.namespace_)

/-- Split of a transaction: its exact rational value and the name of the
account it is posted to (`initialize_split`, lines 201-206). -/
structure Split where
  value : Rat
  account : String
deriving DecidableEq

/-- State of a GnuCash `Transaction` as far as the script manipulates it:
the list of splits parented to it, whether `BeginEdit` was called, the
posted date, the set currency and description, and whether `CommitEdit`
was called. -/
structure Transaction where
  splits : List Split
  editing : Bool
  date : Option (Nat × Nat × Nat)
  currency : Option Commodity
  description : Option String
  committed : Bool
deriving DecidableEq

/-- `initialize_split` (lines 201-206): creates a split with the given value
and account and parents it to the transaction. -/
def initialize_split (value : Rat) (account : String) (trans : Transaction) : Transaction :=
  { trans with splits := trans.splits ++ [⟨value, account⟩] }

/-- `OPENING_DATE = (1, 1, 2011)` (line 99). -/
def OPENING_DATE : Nat × Nat × Nat := (1, 1, 2011)

/-- `OPENING_BALANCE_ACCOUNT = ('Equity', 'Opening Balances')` (line 178). -/
def OPENING_BALANCE_ACCOUNT : List String := ["Equity", "Opening Balances"]

/-- `PREFERED_CURRENCY_FOR_SIMPLE_OPENING_BALANCE = ("CURRENCY", "CAD")`
(line 183). -/
def PREFERED_CURRENCY_FOR_SIMPLE_OPENING_BALANCE : String × String :=
  ("CURRENCY", "CAD")

/-- Account type numbers from the `AcctType` enum (lines 104-127). -/
def ACCT_TYPE_BANK : Int := 0
def ACCT_TYPE_CASH : Int := 1
def ACCT_TYPE_ASSET : Int := 2
def ACCT_TYPE_CREDIT : Int := 3
def ACCT_TYPE_LIABILITY : Int := 4
def ACCT_TYPE_STOCK : Int := 5
def ACCT_TYPE_MUTUAL : Int := 6
def ACCT_TYPE_INCOME : Int := 8
def ACCT_TYPE_EXPENSE : Int := 9
def ACCT_TYPE_EQUITY : Int := 10
def ACCT_TYPE_RECEIVABLE : Int := 11
def ACCT_TYPE_PAYABLE : Int := 12
def ACCT_TYPE_TRADING : Int := 14

/-- The initial `ACCOUNT_TYPES_TO_OPEN` set (lines 138-152). -/
def ACCOUNT_TYPES_TO_OPEN_initial : List Int :=
  [ACCT_TYPE_BANK, ACCT_TYPE_CASH, ACCT_TYPE_CREDIT, ACCT_TYPE_ASSET,
   ACCT_TYPE_LIABILITY, ACCT_TYPE_STOCK, ACCT_TYPE_MUTUAL, ACCT_TYPE_INCOME,
   ACCT_TYPE_EXPENSE, ACCT_TYPE_EQUITY, ACCT_TYPE_RECEIVABLE,
   ACCT_TYPE_PAYABLE, ACCT_TYPE_TRADING]

/-- `ACCOUNT_TYPES_TO_OPEN` after the three set differences (lines 157-176):
income/expense, lot-based types and trading are removed. -/
def ACCOUNT_TYPES_TO_OPEN : List Int :=
  ((ACCOUNT_TYPES_TO_OPEN_initial.filter
      (fun t => t ∉ [ACCT_TYPE_INCOME, ACCT_TYPE_EXPENSE])).filter
      (fun t => t ∉ [ACCT_TYPE_STOCK, ACCT_TYPE_MUTUAL, ACCT_TYPE_RECEIVABLE,
                     ACCT_TYPE_PAYABLE])).filter
      (fun t => t ≠ ACCT_TYPE_TRADING)

/-- Commodity key `(namespace, mnemonic)` as used for the per-currency
dictionaries (`commodity_tuple`, lines 276-287). -/
abbrev CommodKey := String × String

/-- Per-currency dictionary of one type bucket: maps a commodity tuple to the
pending transaction and its running total (docstring of
`record_opening_balance`, lines 212-218). -/
abbrev CurrencyMap := List (CommodKey × (Transaction × Rat))

/-- Lookup in an insertion-ordered dictionary embedded as an association
list. -/
def alistFind? {κ α : Type} [DecidableEq κ] : List (κ × α) → κ → Option α
  | [], _ => none
  | (k', v) :: rest, k => if k' = k then some v else alistFind? rest k

/-- Assignment `d[k] = v` on an insertion-ordered dictionary embedded as an
association list: replaces the value at an existing key in place, appends a
new key at the end. -/
def alistSet {κ α : Type} [DecidableEq κ] : List (κ × α) → κ → α → List (κ × α)
  | [], k, v => [(k, v)]
  | (k', v') :: rest, k, v =>
    if k' = k then (k, v) :: rest else (k', v') :: alistSet rest k v

/-- The nested dictionary `opening_balance_per_type_and_curr` built at
lines 450-453: one `CurrencyMap` per explicitly tracked account type, plus
the wildcard `"*"` entry (always present). -/
structure Buckets where
  typed : List (Int × CurrencyMap)
  wildcard : CurrencyMap
deriving DecidableEq

/-- A fresh `Transaction(new_book)` on which `BeginEdit()` has been called
(lines 235-236). -/
def Transaction_new_begin_edit : Transaction :=
  ⟨[], true, none, none, none, false⟩

/-- Body of `record_opening_balance` operating on one per-currency dictionary
(lines 234-250): create the pending transaction with zero total if the
commodity tuple is new, then add a split valued at the balance and subtract
the balance from the running total (exact rational subtraction,
`GNC_DENOM_AUTO, GNC_HOW_DENOM_EXACT`). -/
def bucket_update (m : CurrencyMap) (commodityTuple : CommodKey)
    (finalBalance : Rat) (newAccountName : String) : CurrencyMap :=
  let m1 := match alistFind? m commodityTuple with
    | some _ => m
    | none => alistSet m commodityTuple (Transaction_new_begin_edit, (0 : Rat))
  match alistFind? m1 commodityTuple with
  | none => m1
  | some (tr, total) =>
    alistSet m1 commodityTuple
      (initialize_split finalBalance newAccountName tr, total - finalBalance)

/-- `record_opening_balance` (lines 209-250).  The Python function receives
the original and the new account objects and the new book; it only uses the
new account's type (`new_account.GetType()`, equal to the original's since
the replicator copied it), the original account's exact balance
(`original_account.GetBalance()`), and the new account itself as the split's
target, embedded here by its name.  `final_balance.num() != 0` is the test
`finalBalance ≠ 0` on the exact rational value. -/
def record_opening_balance (acctType : Int) (finalBalance : Rat)
    (newAccountName : String) (buckets : Buckets)
    (commodityTuple : CommodKey) : Buckets :=
  if acctType ∈ ACCOUNT_TYPES_TO_OPEN then
    if finalBalance ≠ 0 then
      match alistFind? buckets.typed acctType with
      | some m =>
        let m' := bucket_update m commodityTuple finalBalance newAccountName
        { buckets with typed := alistSet buckets.typed acctType m' }
      | none =>
        let w' := bucket_update buckets.wildcard commodityTuple finalBalance newAccountName
        { buckets with wildcard := w' }
    else buckets
  else buckets

/-- Commodity-table bridging step of `recursively_build_account_tree`
(lines 274-282): look the original commodity's `(namespace, mnemonic)` pair
up in the destination book's commodity table; if absent, clone the original
commodity into the destination table (the clone carries the same definition
data); return the updated table and the destination commodity.  The external
`commodtable.lookup` / `commodtable.insert` are embedded as search and append
on the table's commodity list. -/
def ensure_commodity (newCommodityTable : List Commodity)
    (origCommodity : Commodity) : List Commodity × Commodity :=
  match newCommodityTable.find? (fun c =>
      decide (c.namespace_ = origCommodity.namespace_ ∧
              c.mnemonic = origCommodity.mnemonic)) with
  | some c => (newCommodityTable, c)
  | none => (newCommodityTable ++ [origCommodity], origCommodity)

/-- Account of the destination book as manipulated by the opening-account
resolver: its name, its commodity and its ordered list of children.  (The
other account attributes play no role in `find_or_make_account` or
`create_opening_balance_transaction`.) -/
inductive Acct where
  | node (name : String) (commodity : Commodity) (children : List Acct) : Acct

/-- Name of an account. -/
def Acct.name : Acct → String
  | .node n _ _ => n

/-- Commodity of an account. -/
def Acct.commodity : Acct → Commodity
  | .node _ c _ => c

/-- Children of an account. -/
def Acct.children : Acct → List Acct
  | .node _ _ ch => ch

/-- Replace an account's children list (the functional image of mutating the
account's child list in place). -/
def Acct.withChildren : Acct → List Acct → Acct
  | .node n c _, ch => .node n c ch

/-- The external GnuCash `parent_account.lookup_by_name(name)` call, embedded
at its interface boundary as the spec's Resolver contract describes it:
search the parent's children for an account with the given name. -/
def lookup_by_name (children : List Acct) (nm : String) : Option Acct :=
  match children with
  | [] => none
  | c :: rest => if c.name = nm then some c else lookup_by_name rest nm

/-- Replace the first child carrying the given name (the functional image of
in-place mutation of the child that `lookup_by_name` found). -/
def replaceFirst (children : List Acct) (nm : String) (repl : Acct) : List Acct :=
  match children with
  | [] => []
  | c :: rest => if c.name = nm then repl :: rest else c :: replaceFirst rest nm repl

/-- Walk a path of account names down from an account, component by
component, following children by name; returns the account at the path, if
every component exists.  (Verification vocabulary; not a function of the
script.) -/
def lookupPath : Acct → List String → Option Acct
  | _, [] => none
  | a, nm :: rest =>
    match lookup_by_name a.children nm with
    | none => none
    | some c => if rest = [] then some c else lookupPath c rest

/-- `find_or_make_account` (lines 304-334): walk `account_tuple` from
`parent`, creating (with the requested currency as commodity) and attaching
any missing account on the way; at the leaf, return the account only if its
`(mnemonic, namespace)` pair equals the requested currency's, else `none`.
The Python function mutates `parent_account` in place; the embedding returns
the updated parent tree together with the Python return value. -/
def find_or_make_account : List String → Acct → Commodity → Acct × Option Acct
  | [], parent, _ => (parent, none)
  | currentAccountName :: accountPath, parent, currency =>
    match lookup_by_name parent.children currentAccountName with
    | some currentAccount =>
      if accountPath = [] then
        if commodPair currentAccount.commodity = commodPair currency then
          (parent, some currentAccount)
        else
          (parent, none)
      else
        let r := find_or_make_account accountPath currentAccount currency
        (parent.withChildren (replaceFirst parent.children currentAccountName r.1), r.2)
    | none =>
      let currentAccount : Acct := .node currentAccountName currency []
      if accountPath = [] then
        if commodPair currentAccount.commodity = commodPair currency then
          (parent.withChildren (parent.children ++ [currentAccount]), some currentAccount)
        else
          (parent.withChildren (parent.children ++ [currentAccount]), none)
      else
        let r := find_or_make_account accountPath currentAccount currency
        (parent.withChildren (parent.children ++ [r.1]), r.2)

/-- `reconstruct_account_name_with_mnemonic` (lines 297-301): append
`" - " ++ mnemonic` to the last component of the account tuple. -/
def reconstruct_account_name_with_mnemonic : List String → String → List String
  | [], _ => []
  | [x], mnemonic => [x ++ " - " ++ mnemonic]
  | x :: xs, mnemonic => x :: reconstruct_account_name_with_mnemonic xs mnemonic

/-- Python exceptions raised (or raisable) by the script.  The spec names
the exception of `choke_on_none_for_no_account` (a bare Python `Exception`
with message "account currency and name mismatch, ...") the
`AccountConflictError`. -/
inductive PyErr where
  | nameError (name : String)
  | attributeError (msg : String)
  | accountConflictError (msg : String)
  | typeError (msg : String)
  | keyError (name : String)
deriving DecidableEq

/-- `choke_on_none_for_no_account` (lines 337-343): raise if the resolved
opening account is `None`. -/
def choke_on_none_for_no_account (openingAccount : Option Acct)
    (extraString : String) : Except PyErr Unit :=
  match openingAccount with
  | none => .error (.accountConflictError ("account currency and name mismatch, " ++ extraString))
  | some _ => .ok ()

/-- Opening-account resolution step of `create_opening_balance_transaction`
(lines 363-372): for the main currency, attempt the canonical
`OPENING_BALANCE_ACCOUNT` path first and, if that returned `None`, retry
once with the mnemonic-suffixed path (against the tree as mutated by the
first attempt); for any other currency resolve only the suffixed path. -/
def resolve_opening_account (newBookRoot : Acct) (currency : Commodity)
    (mnemonicAccountPieces : List String) (isMainCurrency : Bool) :
    Acct × Option Acct :=
  if isMainCurrency then
    let r := find_or_make_account OPENING_BALANCE_ACCOUNT newBookRoot currency
    match r.2 with
    | none => find_or_make_account mnemonicAccountPieces r.1 currency
    | some _ => r
  else
    find_or_make_account mnemonicAccountPieces newBookRoot currency

/-- `create_opening_balance_transaction` (lines 346-383): look the currency
up in the destination commodity table (`assert currency.get_instance() is
not None` raises an `AttributeError` on a failed lookup, since the lookup
then returned `None`); resolve the opening account via
`resolve_opening_account` and raise via `choke_on_none_for_no_account` if
the resolution returned `None`; add the balancing split only when the
opening amount is nonzero; finally set date, currency and description and
commit.  Returns the updated destination root and the finalized
transaction. -/
def create_opening_balance_transaction (commodtable : List Commodity)
    (namespace_ mnemonic : String) (newBookRoot : Acct)
    (openingTrans : Transaction) (openingAmount : Rat)
    (isMainCurrency : Bool) : Except PyErr (Acct × Transaction) :=
  match commodtable.find? (fun c =>
      decide (c.namespace_ = namespace_ ∧ c.mnemonic = mnemonic)) with
  | none => .error (.attributeError "NoneType object has no attribute get_instance")
  | some currency =>
    match (resolve_opening_account newBookRoot currency (reconstruct_account_name_with_mnemonic OPENING_BALANCE_ACCOUNT mnemonic) isMainCurrency).2 with
    | none =>
      .error (.accountConflictError ("account currency and name mismatch, " ++ String.intercalate ", " (reconstruct_account_name_with_mnemonic OPENING_BALANCE_ACCOUNT mnemonic)))
    | some openingAccount =>
      .ok ((resolve_opening_account newBookRoot currency (reconstruct_account_name_with_mnemonic OPENING_BALANCE_ACCOUNT mnemonic) isMainCurrency).1,
        { (if openingAmount ≠ 0 then initialize_split openingAmount openingAccount.name openingTrans else openingTrans) with
          date := some OPENING_DATE, currency := some currency, description := some "Opening Balance", committed := true })

/-- Account of the source book as read by the replicator: the attributes the
`getattr` loop copies (lines 267-272), the commodity, the account's exact
balance (`original_account.GetBalance()`) and the ordered children. -/
inductive SrcAcct where
  | node (name : String) (type_ : Int) (description notes code color : String)
      (taxRelated placeholder : Bool) (commodity : Commodity) (balance : Rat)
      (children : List SrcAcct) : SrcAcct

/-- Account of the destination book as produced by the replicator: the copied
attributes, the bridged commodity, and the replicated children. -/
inductive DAcct where
  | node (name : String) (type_ : Int) (description notes code color : String)
      (taxRelated placeholder : Bool) (commodity : Commodity)
      (children : List DAcct) : DAcct

/-- Mutable state threaded through the replication: the destination book's
commodity table and the nested opening-balance dictionary. -/
structure BuildState where
  table : List Commodity
  buckets : Buckets

/-- `recursively_build_account_tree` (lines 253-294), embedded functionally:
for every child of the original parent, in order, create the destination
account, copy the attribute set Name, Type, Description, Notes, Code, Color,
TaxRelated, Placeholder verbatim, bridge the commodity through the
destination table, call `record_opening_balance` for the account (with the
original commodity's `(namespace, mnemonic)` as commodity tuple), and then
recurse into the child's own children.  Returns the list of destination
children to attach under the destination parent, plus the final state. -/
def recursively_build_account_tree :
    List SrcAcct → BuildState → List DAcct × BuildState
  | [], st => ([], st)
  | SrcAcct.node nm ty de no co col tax pl cm bal ch :: rest, st =>
    let e := ensure_commodity st.table cm
    let b1 := record_opening_balance ty bal nm st.buckets (cm.namespace_, cm.mnemonic)
    let rc := recursively_build_account_tree ch ⟨e.1, b1⟩
    let rr := recursively_build_account_tree rest rc.2
    (DAcct.node nm ty de no co col tax pl e.2 rc.1 :: rr.1, rr.2)
termination_by l _ => sizeOf l
decreasing_by
  all_goals simp <;> omega

/-- Module-level names bound in `jahreswechsel.py`: the names introduced by
the import statements (lines 30-53) and the module-level assignments,
classes and function definitions (lines 99-543). -/
def moduleGlobals : List String :=
  ["embed", "argparse", "configparser", "os", "sys", "date", "IntEnum",
   "Optional", "gnucash", "Session", "Account", "Transaction", "Split",
   "GncNumeric", "SessionOpenMode", "GNC_DENOM_AUTO", "GNC_HOW_DENOM_EXACT",
   "business", "OPENING_DATE", "AcctType", "ACCOUNT_TYPES_TO_OPEN",
   "OPENING_BALANCE_ACCOUNT", "PREFERED_CURRENCY_FOR_SIMPLE_OPENING_BALANCE",
   "printify_transaction", "initialize_split", "record_opening_balance",
   "recursively_build_account_tree", "reconstruct_account_name_with_mnemonic",
   "find_or_make_account", "choke_on_none_for_no_account",
   "create_opening_balance_transaction", "duplicate_business",
   "duplicate_with_opening_balance", "_parse_arguments", "main"]

/-- Module-level names bound in `gnucash_tools/business.py` (the only other
module of the program that defines names): the imports (lines 6-13) plus the
two classes the module defines, `Entity` (line 16) and `Vendor` (line 99).
(`business.Customer` and `business.Employee`, referenced by
`duplicate_business`, are not bound there either.) -/
def businessModuleGlobals : List String :=
  ["annotations", "abc", "ABC", "Optional", "gnucash", "gnucash_business",
   "Entity", "Vendor"]

/-- Observable outcome of one `duplicate_with_opening_balance` run: the
replicated destination children, the accumulated buckets and commodity
table, the list of opening-balance transactions that were finalized
(committed), whether `duplicate_business` ran, and the exception the run
raised, if any. -/
structure RunOutcome where
  destChildren : List DAcct
  buckets : Buckets
  commodTable : List Commodity
  finalized : List Transaction
  businessCloned : Bool
  err : Option PyErr

/-- Members of the `AcctType` enum (lines 104-127), by name. -/
def AcctType_members : List (String × Int) :=
  [("ACCT_TYPE_NONE", -1), ("ACCT_TYPE_BANK", ACCT_TYPE_BANK),
   ("ACCT_TYPE_CASH", ACCT_TYPE_CASH), ("ACCT_TYPE_CREDIT", ACCT_TYPE_CREDIT),
   ("ACCT_TYPE_ASSET", ACCT_TYPE_ASSET),
   ("ACCT_TYPE_LIABILITY", ACCT_TYPE_LIABILITY),
   ("ACCT_TYPE_STOCK", ACCT_TYPE_STOCK),
   ("ACCT_TYPE_MUTUAL", ACCT_TYPE_MUTUAL), ("ACCT_TYPE_CURRENCY", 7),
   ("ACCT_TYPE_INCOME", ACCT_TYPE_INCOME),
   ("ACCT_TYPE_EXPENSE", ACCT_TYPE_EXPENSE),
   ("ACCT_TYPE_EQUITY", ACCT_TYPE_EQUITY),
   ("ACCT_TYPE_RECEIVABLE", ACCT_TYPE_RECEIVABLE),
   ("ACCT_TYPE_PAYABLE", ACCT_TYPE_PAYABLE), ("ACCT_TYPE_ROOT", 13),
   ("ACCT_TYPE_TRADING", ACCT_TYPE_TRADING), ("ACCT_TYPE_CHECKING", 15),
   ("ACCT_TYPE_SAVINGS", 16), ("ACCT_TYPE_MONEYMRKT", 17),
   ("ACCT_TYPE_CREDITLINE", 18)]

/-- Python `str.upper()` on the ASCII type names used here: uppercase every
character.  (Same mapping as `String.toUpper`, written over the character
list so that it evaluates in proofs.) -/
def pyUpper (s : String) : String :=
  ⟨s.data.map Char.toUpper⟩

/-- `AcctType.shortname` (lines 129-134): look `ACCT_TYPE_<NAME.upper()>` up
among the enum members; on a miss, `cls[...]` raises `KeyError`, re-raised
as `KeyError(name)`. -/
def AcctType_shortname (name : String) : Except PyErr Int :=
  match alistFind? AcctType_members ("ACCT_TYPE_" ++ pyUpper name) with
  | some t => .ok t
  | none => .error (.keyError name)

/-- The dict comprehension of lines 450-452,
`{AcctType.shortname(typename): {} for typename in accounts}`, applied to
the key list of the `accounts` dict: convert each type name in order,
propagating the `KeyError` of the first invalid name. -/
def shortname_keys : List String → Except PyErr (List Int)
  | [] => .ok []
  | n :: rest =>
    match AcctType_shortname n with
    | .error e => .error e
    | .ok t =>
      match shortname_keys rest with
      | .error e => .error e
      | .ok ts => .ok (t :: ts)

/-- `duplicate_with_opening_balance` (lines 411-498), embedded from the
point where both books are open.  `accounts` is the caller-supplied
`accounts` parameter, represented by the (ordered) key list of the dict, or
`none` for its declared default `accounts=None` (line 411); `table0` is the
initial commodity table of the destination book.  Line 451 iterates
`accounts`: with the `None` default this raises
`TypeError` ("'NoneType' object is not iterable"), and an unknown type name
raises `KeyError` in `AcctType.shortname` — both before
`recursively_build_account_tree` runs (line 454), so those outcomes carry
no replicated children.  Otherwise, after replicating the tree
(lines 454-462) and printing the balance report (lines 464-472, no state
effect), line 474 evaluates the global name `get_main_currency`; evaluating
a name that is not bound in the module namespace raises `NameError` in
Python, so the run never reaches the finalization loop (lines 476-496,
which would also reference the unbound `PREFERRED_CURRENCY` and
`PREFERED_CURRENCY`) nor `duplicate_business` (line 498).  The branch where
the name is bound never arises (see `moduleGlobals`); its `err` is `none`
and everything else records only the state actually reached. -/
def duplicate_with_opening_balance (srcChildren : List SrcAcct)
    (accounts : Option (List String)) (table0 : List Commodity) : RunOutcome :=
  match accounts with
  | none =>
    { destChildren := [], buckets := ⟨[], []⟩, commodTable := table0,
      finalized := [], businessCloned := false,
      err := some (.typeError "argument of type NoneType is not iterable") }
  | some typenames =>
    match shortname_keys typenames with
    | .error e =>
      { destChildren := [], buckets := ⟨[], []⟩, commodTable := table0,
        finalized := [], businessCloned := false, err := some e }
    | .ok typedKeys =>
      let buckets0 : Buckets := ⟨typedKeys.map (fun t => (t, [])), []⟩
      let r := recursively_build_account_tree srcChildren ⟨table0, buckets0⟩
      { destChildren := r.1, buckets := r.2.buckets, commodTable := r.2.table,
        finalized := [], businessCloned := false,
        err := if "get_main_currency" ∈ moduleGlobals then none
               else some (.nameError "get_main_currency") }

/-- Data of one call to `record_opening_balance` during a run: the (copied)
account type, the original account's exact balance, the original commodity's
`(namespace, mnemonic)` tuple, and the destination account's name.
(Verification vocabulary.) -/
structure Contribution where
  ctype : Int
  balance : Rat
  key : CommodKey
  acctName : String
deriving DecidableEq

/-- Key of the outer type-bucket dictionary: an explicitly tracked account
type, or the wildcard `"*"` entry.  (Verification vocabulary.) -/
inductive BucketKey where
  | typed (t : Int) : BucketKey
  | wild : BucketKey
deriving DecidableEq

/-- Which outer bucket a given account type is routed to (lines 228-231): its
own type bucket when that type is a key of the outer dictionary, else the
wildcard bucket. -/
def routeKey (typedKeys : List Int) (t : Int) : BucketKey :=
  if t ∈ typedKeys then .typed t else .wild

/-- One accumulation step, as `recursively_build_account_tree` performs it
for one visited account. -/
def recordStep (b : Buckets) (c : Contribution) : Buckets :=
  record_opening_balance c.ctype c.balance c.acctName b c.key

/-- The outer dictionary as `duplicate_with_opening_balance` initializes it
(lines 450-453): one empty per-currency dictionary per tracked type, plus
the empty wildcard entry. -/
def initBuckets (typedKeys : List Int) : Buckets :=
  ⟨typedKeys.map (fun t => (t, [])), []⟩

/-- The bucket state after a run consisting of the given contributions in
order. -/
def runBuckets (typedKeys : List Int) (cs : List Contribution) : Buckets :=
  cs.foldl recordStep (initBuckets typedKeys)

/-- Whether a contribution is folded into the bucket at `(bk, key)`: its type
must be eligible, its balance nonzero, its type routed to `bk` and its
commodity tuple equal to `key`. -/
def contributesTo (typedKeys : List Int) (bk : BucketKey) (key : CommodKey)
    (c : Contribution) : Bool :=
  decide (c.ctype ∈ ACCOUNT_TYPES_TO_OPEN) && decide (c.balance ≠ 0) &&
    decide (routeKey typedKeys c.ctype = bk) && decide (c.key = key)

/-- The balances folded into the bucket at `(bk, key)` by a contribution
list, in order. -/
def routedTo (typedKeys : List Int) (bk : BucketKey) (key : CommodKey)
    (cs : List Contribution) : List Rat :=
  (cs.filter (contributesTo typedKeys bk key)).map Contribution.balance

/-- The values of a transaction's splits, in order. -/
def splitValues (t : Transaction) : List Rat :=
  t.splits.map Split.value

/-- The per-currency dictionary stored for an outer bucket key. -/
def bucketMapFor (b : Buckets) : BucketKey → Option CurrencyMap
  | .typed t => alistFind? b.typed t
  | .wild => some b.wildcard

/-- Invariant of one per-currency dictionary after the contributions `cs`:
its keys are distinct; an entry exists for exactly the commodity tuples with
at least one folded balance; each entry's transaction holds one split per
folded balance (in order, valued at that balance), is open for editing and
not yet committed, and its running total is the negated exact sum of the
folded balances. -/
def GoodMap (typedKeys : List Int) (bk : BucketKey) (cs : List Contribution)
    (m : CurrencyMap) : Prop :=
  (m.map Prod.fst).Nodup ∧
  (∀ key tr tot, alistFind? m key = some (tr, tot) →
    routedTo typedKeys bk key cs ≠ [] ∧
    splitValues tr = routedTo typedKeys bk key cs ∧
    tot = -(routedTo typedKeys bk key cs).sum ∧
    tr.editing = true ∧ tr.committed = false) ∧
  (∀ key, alistFind? m key = none → routedTo typedKeys bk key cs = [])

/-- Invariant of the whole nested dictionary after the contributions `cs`. -/
def GoodBuckets (typedKeys : List Int) (cs : List Contribution)
    (b : Buckets) : Prop :=
  b.typed.map Prod.fst = typedKeys ∧
  ∀ bk m, bucketMapFor b bk = some m → GoodMap typedKeys bk cs m

/-- Depth-first pre-order traversal of a source forest: each account before
its children, children before the next sibling.  (Verification
vocabulary.) -/
def preorderList : List SrcAcct → List SrcAcct
  | [] => []
  | SrcAcct.node nm ty de no co col tax pl cm bal ch :: rest =>
    SrcAcct.node nm ty de no co col tax pl cm bal ch ::
      (preorderList ch ++ preorderList rest)
termination_by l => sizeOf l
decreasing_by
  all_goals simp <;> omega

/-- The contribution `recursively_build_account_tree` makes for one visited
source account. -/
def toContribution : SrcAcct → Contribution
  | SrcAcct.node nm ty _ _ _ _ _ _ cm bal _ =>
    ⟨ty, bal, (cm.namespace_, cm.mnemonic), nm⟩

/-- All contributions of a source forest, in visit order. -/
def contribsOf (cs : List SrcAcct) : List Contribution :=
  (preorderList cs).map toContribution

/-- Shape of an account tree: the attribute set the spec requires the
replicator to copy (name, type, description, notes, code, tax-related,
placeholder) together with the parent/child structure. -/
inductive Shape where
  | node (name : String) (type_ : Int) (description notes code : String)
      (taxRelated placeholder : Bool) (children : List Shape) : Shape

/-- Shape of a source account. -/
def SrcAcct.shape : SrcAcct → Shape
  | SrcAcct.node nm ty de no co _col tax pl _cm _bal ch =>
    .node nm ty de no co tax pl (ch.attach.map (fun c => SrcAcct.shape c.1))
termination_by a => sizeOf a
decreasing_by
  have := List.sizeOf_lt_of_mem c.2
  simp at this ⊢; omega

/-- Shape of a destination account. -/
def DAcct.shape : DAcct → Shape
  | DAcct.node nm ty de no co _col tax pl _cm ch =>
    .node nm ty de no co tax pl (ch.attach.map (fun c => DAcct.shape c.1))
termination_by a => sizeOf a
decreasing_by
  have := List.sizeOf_lt_of_mem c.2
  simp at this ⊢; omega

theorem alistFind?_alistSet_self {κ α : Type} [DecidableEq κ]
    (m : List (κ × α)) (k : κ) (v : α) :
    alistFind? (alistSet m k v) k = some v := by
  induction m with
  | nil => simp [alistSet, alistFind?]
  | cons p rest ih =>
    obtain ⟨k', v'⟩ := p
    by_cases h : k' = k
    · simp [alistSet, alistFind?, h]
    · simp [alistSet, alistFind?, h, ih]

theorem alistFind?_alistSet_ne {κ α : Type} [DecidableEq κ]
    (m : List (κ × α)) (k k'' : κ) (v : α) (h : k'' ≠ k) :
    alistFind? (alistSet m k v) k'' = alistFind? m k'' := by
  induction m with
  | nil => simp [alistSet, alistFind?, Ne.symm h]
  | cons p rest ih =>
    obtain ⟨k', v'⟩ := p
    by_cases hk : k' = k
    · subst hk
      simp [alistSet, alistFind?, Ne.symm h]
    · simp only [alistSet, if_neg hk, alistFind?]
      by_cases hk2 : k' = k''
      · simp [hk2]
      · simp [hk2, ih]

theorem alistSet_of_find_none {κ α : Type} [DecidableEq κ]
    (m : List (κ × α)) (k : κ) (v : α) (h : alistFind? m k = none) :
    alistSet m k v = m ++ [(k, v)] := by
  induction m with
  | nil => simp [alistSet]
  | cons p rest ih =>
    obtain ⟨k', v'⟩ := p
    simp only [alistFind?] at h
    by_cases hk : k' = k
    · simp [hk] at h
    · simp only [alistSet, if_neg hk, List.cons_append, List.cons.injEq, true_and]
      exact ih (by simpa [hk] using h)

theorem map_fst_alistSet_of_find_some {κ α : Type} [DecidableEq κ]
    (m : List (κ × α)) (k : κ) (v w : α) (h : alistFind? m k = some w) :
    (alistSet m k v).map Prod.fst = m.map Prod.fst := by
  induction m with
  | nil => simp [alistFind?] at h
  | cons p rest ih =>
    obtain ⟨k', v'⟩ := p
    simp only [alistFind?] at h
    by_cases hk : k' = k
    · simp [alistSet, hk]
    · simp only [alistSet, if_neg hk, List.map_cons, List.cons.injEq, true_and]
      exact ih (by simpa [hk] using h)

theorem alistFind?_eq_none_iff {κ α : Type} [DecidableEq κ]
    (m : List (κ × α)) (k : κ) :
    alistFind? m k = none ↔ k ∉ m.map Prod.fst := by
  induction m with
  | nil => simp [alistFind?]
  | cons p rest ih =>
    obtain ⟨k', v'⟩ := p
    by_cases hk : k' = k
    · simp [alistFind?, hk]
    · simp [alistFind?, hk, ih, Ne.symm hk]

theorem alistFind?_append_single_ne {κ α : Type} [DecidableEq κ]
    (m : List (κ × α)) (k k'' : κ) (v : α) (h : k'' ≠ k) :
    alistFind? (m ++ [(k, v)]) k'' = alistFind? m k'' := by
  induction m with
  | nil => simp [alistFind?, Ne.symm h]
  | cons p rest ih =>
    obtain ⟨k', v'⟩ := p
    by_cases hk : k' = k''
    · simp [alistFind?, hk]
    · simp [alistFind?, hk, ih]

theorem contributesTo_eq_true_iff (K : List Int) (bk : BucketKey)
    (key : CommodKey) (c : Contribution) :
    contributesTo K bk key c = true ↔
      (c.ctype ∈ ACCOUNT_TYPES_TO_OPEN ∧ c.balance ≠ 0 ∧
       routeKey K c.ctype = bk ∧ c.key = key) := by
  simp [contributesTo, and_assoc]

theorem routedTo_append (K : List Int) (bk : BucketKey) (key : CommodKey)
    (cs : List Contribution) (c : Contribution) :
    routedTo K bk key (cs ++ [c]) =
      routedTo K bk key cs ++
        (if contributesTo K bk key c then [c.balance] else []) := by
  by_cases h : contributesTo K bk key c <;>
    simp [routedTo, List.filter_append, h]

theorem splitValues_initialize_split (v : Rat) (a : String) (t : Transaction) :
    splitValues (initialize_split v a t) = splitValues t ++ [v] := by
  simp [splitValues, initialize_split]

theorem GoodMap_frame {K : List Int} {bk : BucketKey} {cs : List Contribution}
    {m : CurrencyMap} {c : Contribution} (h : GoodMap K bk cs m)
    (hc : ∀ key, contributesTo K bk key c = false) :
    GoodMap K bk (cs ++ [c]) m := by
  obtain ⟨hnd, hsome, hnone⟩ := h
  refine ⟨hnd, ?_, ?_⟩
  · intro key tr tot hfind
    simpa [routedTo_append, hc key] using hsome key tr tot hfind
  · intro key hfind
    simpa [routedTo_append, hc key] using hnone key hfind

theorem GoodMap_bucket_update {K : List Int} {bk : BucketKey}
    {cs : List Contribution} {m : CurrencyMap} {c : Contribution}
    (h : GoodMap K bk cs m)
    (helig : c.ctype ∈ ACCOUNT_TYPES_TO_OPEN) (hnz : c.balance ≠ 0)
    (hroute : routeKey K c.ctype = bk) :
    GoodMap K bk (cs ++ [c]) (bucket_update m c.key c.balance c.acctName) := by
  obtain ⟨hnd, hsome, hnone⟩ := h
  have hctrue : contributesTo K bk c.key c = true := by
    simp [contributesTo, helig, hnz, hroute]
  have hcfalse : ∀ key, key ≠ c.key → contributesTo K bk key c = false := by
    intro key hkey
    simp [contributesTo, Ne.symm hkey]
  cases hfind : alistFind? m c.key with
  | some p =>
    obtain ⟨tr0, tot0⟩ := p
    obtain ⟨hne0, hsv0, htot0, hed0, hcm0⟩ := hsome c.key tr0 tot0 hfind
    have hres : bucket_update m c.key c.balance c.acctName =
        alistSet m c.key
          (initialize_split c.balance c.acctName tr0, tot0 - c.balance) := by
      simp [bucket_update, hfind]
    rw [hres]
    refine ⟨?_, ?_, ?_⟩
    · rw [map_fst_alistSet_of_find_some m c.key _ _ hfind]
      exact hnd
    · intro key tr tot hfind2
      by_cases hk : key = c.key
      · subst hk
        rw [alistFind?_alistSet_self] at hfind2
        injection hfind2 with hpair
        injection hpair with htr htot
        subst htr
        subst htot
        rw [routedTo_append]
        simp only [hctrue, if_pos]
        refine ⟨by simp, ?_, ?_, ?_, ?_⟩
        · rw [splitValues_initialize_split, hsv0]
        · rw [List.sum_append, htot0]
          simp
          ring
        · simpa [initialize_split] using hed0
        · simpa [initialize_split] using hcm0
      · rw [alistFind?_alistSet_ne _ _ _ _ hk] at hfind2
        simpa [routedTo_append, hcfalse key hk] using hsome key tr tot hfind2
    · intro key hfind2
      have hk : key ≠ c.key := by
        intro he
        subst he
        rw [alistFind?_alistSet_self] at hfind2
        cases hfind2
      rw [alistFind?_alistSet_ne _ _ _ _ hk] at hfind2
      simpa [routedTo_append, hcfalse key hk] using hnone key hfind2
  | none =>
    have hnotmem : c.key ∉ m.map Prod.fst := (alistFind?_eq_none_iff m c.key).mp hfind
    have hm1 : alistSet m c.key (Transaction_new_begin_edit, (0 : Rat)) =
        m ++ [(c.key, (Transaction_new_begin_edit, (0 : Rat)))] :=
      alistSet_of_find_none _ _ _ hfind
    have hfind1 : alistFind?
        (m ++ [(c.key, (Transaction_new_begin_edit, (0 : Rat)))]) c.key =
        some (Transaction_new_begin_edit, (0 : Rat)) := by
      rw [← hm1]
      exact alistFind?_alistSet_self m c.key _
    have hres : bucket_update m c.key c.balance c.acctName =
        alistSet (m ++ [(c.key, (Transaction_new_begin_edit, (0 : Rat)))]) c.key
          (initialize_split c.balance c.acctName Transaction_new_begin_edit,
           0 - c.balance) := by
      simp [bucket_update, hfind, hm1, hfind1]
    rw [hres]
    refine ⟨?_, ?_, ?_⟩
    · rw [map_fst_alistSet_of_find_some _ c.key _ _ hfind1]
      simp only [List.map_append, List.map_cons, List.map_nil]
      rw [List.nodup_append]
      exact ⟨hnd, List.nodup_singleton _, by simpa using hnotmem⟩
    · intro key tr tot hfind2
      by_cases hk : key = c.key
      · subst hk
        rw [alistFind?_alistSet_self] at hfind2
        injection hfind2 with hpair
        injection hpair with htr htot
        subst htr
        subst htot
        rw [routedTo_append]
        simp only [hctrue, if_pos]
        rw [hnone c.key hfind]
        refine ⟨by simp, ?_, by simp, ?_, ?_⟩
        · simp [splitValues, initialize_split, Transaction_new_begin_edit]
        · simp [initialize_split, Transaction_new_begin_edit]
        · simp [initialize_split, Transaction_new_begin_edit]
      · rw [alistFind?_alistSet_ne _ _ _ _ hk,
            alistFind?_append_single_ne _ _ _ _ hk] at hfind2
        simpa [routedTo_append, hcfalse key hk] using hsome key tr tot hfind2
    · intro key hfind2
      have hk : key ≠ c.key := by
        intro he
        subst he
        rw [alistFind?_alistSet_self] at hfind2
        cases hfind2
      rw [alistFind?_alistSet_ne _ _ _ _ hk,
          alistFind?_append_single_ne _ _ _ _ hk] at hfind2
      simpa [routedTo_append, hcfalse key hk] using hnone key hfind2

theorem mem_of_alistFind?_some {κ α : Type} [DecidableEq κ]
    {m : List (κ × α)} {k : κ} {v : α} (h : alistFind? m k = some v) :
    k ∈ m.map Prod.fst := by
  by_contra hmem
  rw [← alistFind?_eq_none_iff] at hmem
  rw [hmem] at h
  cases h

theorem alistFind?_map_empty (K : List Int) (t : Int) (m : CurrencyMap)
    (h : alistFind? (K.map (fun t => (t, ([] : CurrencyMap)))) t = some m) :
    m = [] := by
  induction K with
  | nil => cases h
  | cons k rest ih =>
    simp only [List.map_cons, alistFind?] at h
    by_cases hk : k = t
    · rw [if_pos hk] at h
      injection h with h
      exact h.symm
    · rw [if_neg hk] at h
      exact ih h

theorem GoodBuckets_step {K : List Int} {cs : List Contribution} {b : Buckets}
    {c : Contribution} (h : GoodBuckets K cs b) :
    GoodBuckets K (cs ++ [c]) (recordStep b c) := by
  obtain ⟨hkeys, hmaps⟩ := h
  by_cases helig : c.ctype ∈ ACCOUNT_TYPES_TO_OPEN
  · by_cases hnz : c.balance ≠ 0
    · cases hfind : alistFind? b.typed c.ctype with
      | some m0 =>
        have hmem : c.ctype ∈ K := by
          rw [← hkeys]
          exact mem_of_alistFind?_some hfind
        have hroute : routeKey K c.ctype = .typed c.ctype := by
          simp [routeKey, hmem]
        have hrec : recordStep b c =
            Buckets.mk (alistSet b.typed c.ctype
              (bucket_update m0 c.key c.balance c.acctName)) b.wildcard := by
          simp [recordStep, record_opening_balance, helig, hnz, hfind]
        rw [hrec]
        refine ⟨?_, ?_⟩
        · show (alistSet b.typed c.ctype
              (bucket_update m0 c.key c.balance c.acctName)).map Prod.fst = K
          rw [map_fst_alistSet_of_find_some _ _ _ _ hfind]
          exact hkeys
        · intro bk m hm
          cases bk with
          | wild =>
            simp only [bucketMapFor] at hm
            injection hm with hm
            subst hm
            refine GoodMap_frame (hmaps .wild b.wildcard rfl) (fun key => ?_)
            simp [contributesTo, hroute]
          | typed t =>
            simp only [bucketMapFor] at hm
            by_cases ht : t = c.ctype
            · subst ht
              rw [alistFind?_alistSet_self] at hm
              injection hm with hm
              subst hm
              exact GoodMap_bucket_update (hmaps (.typed c.ctype) m0 hfind) helig hnz hroute
            · rw [alistFind?_alistSet_ne _ _ _ _ ht] at hm
              refine GoodMap_frame (hmaps (.typed t) m hm) (fun key => ?_)
              have hne : routeKey K c.ctype ≠ BucketKey.typed t := by
                rw [hroute]
                intro hh
                injection hh with hh
                exact ht hh.symm
              simp [contributesTo, hne]
      | none =>
        have hmem : c.ctype ∉ K := by
          rw [← hkeys]
          exact (alistFind?_eq_none_iff _ _).mp hfind
        have hroute : routeKey K c.ctype = .wild := by
          simp [routeKey, hmem]
        have hrec : recordStep b c =
            Buckets.mk b.typed
              (bucket_update b.wildcard c.key c.balance c.acctName) := by
          simp [recordStep, record_opening_balance, helig, hnz, hfind]
        rw [hrec]
        refine ⟨hkeys, ?_⟩
        intro bk m hm
        cases bk with
        | wild =>
          simp only [bucketMapFor] at hm
          injection hm with hm
          subst hm
          exact GoodMap_bucket_update (hmaps .wild b.wildcard rfl) helig hnz hroute
        | typed t =>
          simp only [bucketMapFor] at hm
          refine GoodMap_frame (hmaps (.typed t) m hm) (fun key => ?_)
          have hne : routeKey K c.ctype ≠ BucketKey.typed t := by
            rw [hroute]
            simp
          simp [contributesTo, hne]
    · push_neg at hnz
      have hrec : recordStep b c = b := by
        simp [recordStep, record_opening_balance, hnz]
      rw [hrec]
      refine ⟨hkeys, fun bk m hm => GoodMap_frame (hmaps bk m hm) (fun key => ?_)⟩
      simp [contributesTo, hnz]
  · have hrec : recordStep b c = b := by
      simp [recordStep, record_opening_balance, helig]
    rw [hrec]
    refine ⟨hkeys, fun bk m hm => GoodMap_frame (hmaps bk m hm) (fun key => ?_)⟩
    simp [contributesTo, helig]

theorem GoodBuckets_init (K : List Int) : GoodBuckets K [] (initBuckets K) := by
  refine ⟨by simp [initBuckets, List.map_map, Function.comp_def], ?_⟩
  intro bk m hm
  have hempty : m = [] := by
    cases bk with
    | wild =>
      simp only [initBuckets, bucketMapFor] at hm
      injection hm with hm
      exact hm.symm
    | typed t =>
      exact alistFind?_map_empty K t m (by simpa [initBuckets, bucketMapFor] using hm)
  subst hempty
  refine ⟨by simp, ?_, ?_⟩
  · intro key tr tot hfind
    cases hfind
  · intro key _
    rfl

theorem runBuckets_good (K : List Int) (cs : List Contribution) :
    GoodBuckets K cs (runBuckets K cs) := by
  induction cs using List.reverseRecOn with
  | nil => exact GoodBuckets_init K
  | append_singleton cs c ih =>
    have hstep : runBuckets K (cs ++ [c]) = recordStep (runBuckets K cs) c := by
      simp [runBuckets, List.foldl_append]
    rw [hstep]
    exact GoodBuckets_step ih

/-- Euro commodity used in concrete evaluations. -/
def eur : Commodity := ⟨"CURRENCY", "EUR", "Euro"⟩

/-- Pound-sterling commodity used in concrete evaluations. -/
def gbp : Commodity := ⟨"CURRENCY", "GBP", "Pound Sterling"⟩

/-- C6: an account whose type is eligible but whose source balance is exactly
zero contributes no split and creates no bucket entry, and an account whose
type is not in the eligible set contributes nothing at all: in either case
`record_opening_balance` returns the bucket dictionary unchanged. -/
theorem record_opening_balance_zero_or_ineligible_is_noop
    (acctType : Int) (finalBalance : Rat) (newAccountName : String)
    (buckets : Buckets) (commodityTuple : CommodKey)
    (h : finalBalance = 0 ∨ acctType ∉ ACCOUNT_TYPES_TO_OPEN) :
    record_opening_balance acctType finalBalance newAccountName buckets
      commodityTuple = buckets := by
  rcases h with h | h
  · simp [record_opening_balance, h]
  · simp [record_opening_balance, h]

theorem record_opening_balance_zero_or_ineligible_is_noop_witness :
    ((0 : Rat) = 0 ∨ ACCT_TYPE_ASSET ∉ ACCOUNT_TYPES_TO_OPEN) ∧
    record_opening_balance ACCT_TYPE_ASSET 0 "Bank" (initBuckets [])
      ("CURRENCY", "EUR") = initBuckets [] ∧
    ((0 : Rat) = 0 ∨ ACCT_TYPE_INCOME ∉ ACCOUNT_TYPES_TO_OPEN) ∧
    record_opening_balance ACCT_TYPE_INCOME 100 "Salary" (initBuckets [])
      ("CURRENCY", "EUR") = initBuckets [] :=
  ⟨Or.inl rfl,
   record_opening_balance_zero_or_ineligible_is_noop _ _ _ _ _ (Or.inl rfl),
   Or.inl rfl,
   record_opening_balance_zero_or_ineligible_is_noop _ _ _ _ _
     (Or.inr (by decide))⟩

/-- C9: throughout a run (any list of contributions), the outer dictionary
keeps exactly the tracked type keys; every per-currency dictionary has
distinct commodity keys (at most one open bucket per
(type-bucket, namespace, mnemonic) key); an entry exists for a key exactly
when some nonzero eligible contribution was routed to it (lazy creation);
each entry's transaction is open for editing and uncommitted; and each
entry's running total is the negated exact sum of all balances folded into
it.  Routing sends an account type to its own bucket when tracked, else to
the wildcard bucket. -/
theorem bucket_map_invariant (typedKeys : List Int) (cs : List Contribution) :
    (runBuckets typedKeys cs).typed.map Prod.fst = typedKeys ∧
    (∀ bk m, bucketMapFor (runBuckets typedKeys cs) bk = some m →
      (m.map Prod.fst).Nodup ∧
      (∀ key tr tot, alistFind? m key = some (tr, tot) →
        routedTo typedKeys bk key cs ≠ [] ∧
        tr.editing = true ∧ tr.committed = false ∧
        splitValues tr = routedTo typedKeys bk key cs ∧
        tot = -(routedTo typedKeys bk key cs).sum) ∧
      (∀ key, alistFind? m key = none →
        routedTo typedKeys bk key cs = [])) := by
  obtain ⟨h1, h2⟩ := runBuckets_good typedKeys cs
  refine ⟨h1, ?_⟩
  intro bk m hm
  obtain ⟨hnd, hsome, hnone⟩ := h2 bk m hm
  refine ⟨hnd, ?_, hnone⟩
  intro key tr tot hfind
  obtain ⟨ha, hb, hc, hd, he⟩ := hsome key tr tot hfind
  exact ⟨ha, hd, he, hb, hc⟩

theorem bucket_map_invariant_witness :
    routedTo [ACCT_TYPE_ASSET] (BucketKey.typed ACCT_TYPE_ASSET)
      ("CURRENCY", "EUR")
      [⟨ACCT_TYPE_ASSET, 100, ("CURRENCY", "EUR"), "Bank"⟩] ≠ [] ∧
    Transaction.editing ⟨[⟨100, "Bank"⟩], true, none, none, none, false⟩ = true ∧
    Transaction.committed ⟨[⟨100, "Bank"⟩], true, none, none, none, false⟩ = false ∧
    splitValues ⟨[⟨100, "Bank"⟩], true, none, none, none, false⟩ =
      routedTo [ACCT_TYPE_ASSET] (BucketKey.typed ACCT_TYPE_ASSET)
        ("CURRENCY", "EUR")
        [⟨ACCT_TYPE_ASSET, 100, ("CURRENCY", "EUR"), "Bank"⟩] ∧
    (-100 : Rat) =
      -(routedTo [ACCT_TYPE_ASSET] (BucketKey.typed ACCT_TYPE_ASSET)
          ("CURRENCY", "EUR")
          [⟨ACCT_TYPE_ASSET, 100, ("CURRENCY", "EUR"), "Bank"⟩]).sum := by
  have hrun : runBuckets [ACCT_TYPE_ASSET]
      [⟨ACCT_TYPE_ASSET, 100, ("CURRENCY", "EUR"), "Bank"⟩] =
      Buckets.mk [(ACCT_TYPE_ASSET,
        [(("CURRENCY", "EUR"),
          (⟨[⟨100, "Bank"⟩], true, none, none, none, false⟩, -100))])] [] := by
    norm_num [runBuckets, recordStep, record_opening_balance, initBuckets,
      bucket_update, alistFind?, alistSet, Transaction_new_begin_edit,
      initialize_split, ACCOUNT_TYPES_TO_OPEN, ACCOUNT_TYPES_TO_OPEN_initial,
      ACCT_TYPE_ASSET, ACCT_TYPE_BANK, ACCT_TYPE_CASH, ACCT_TYPE_CREDIT,
      ACCT_TYPE_LIABILITY, ACCT_TYPE_STOCK, ACCT_TYPE_MUTUAL, ACCT_TYPE_INCOME,
      ACCT_TYPE_EXPENSE, ACCT_TYPE_EQUITY, ACCT_TYPE_RECEIVABLE,
      ACCT_TYPE_PAYABLE, ACCT_TYPE_TRADING]
  have h := (bucket_map_invariant [ACCT_TYPE_ASSET]
      [⟨ACCT_TYPE_ASSET, 100, ("CURRENCY", "EUR"), "Bank"⟩]).2
    (BucketKey.typed ACCT_TYPE_ASSET)
    [(("CURRENCY", "EUR"),
      (⟨[⟨100, "Bank"⟩], true, none, none, none, false⟩, -100))]
    (by rw [hrun]; rfl)
  exact h.2.1 ("CURRENCY", "EUR")
    ⟨[⟨100, "Bank"⟩], true, none, none, none, false⟩ (-100) rfl

theorem create_opening_balance_transaction_ok_splits
    {table : List Commodity} {ns mn : String} {root : Acct}
    {tr : Transaction} {amt : Rat} {isMain : Bool} {root' : Acct}
    {tr' : Transaction}
    (h : create_opening_balance_transaction table ns mn root tr amt isMain
      = .ok (root', tr')) :
    splitValues tr' = splitValues tr ++ (if amt = 0 then [] else [amt]) := by
  unfold create_opening_balance_transaction at h
  split at h
  · cases h
  · split at h
    · cases h
    · injection h with hpair
      injection hpair with h1 h2
      subst h2
      by_cases hamt : amt = 0
      · simp [hamt, splitValues]
      · simp [hamt, splitValues, initialize_split]

/-- C1: for every bucket produced by any run of the accumulator, the sum of
the split values added by `record_opening_balance` (one per eligible
nonzero-balance account, valued at that account's source balance) plus the
final balancing split that `create_opening_balance_transaction` adds (valued
at the bucket's running total) is exactly zero in exact rational
arithmetic — whenever the materializer finalizes the bucket's transaction
successfully, the finalized transaction's split values sum to zero. -/
theorem opening_balance_conservation
    (typedKeys : List Int) (cs : List Contribution) (bk : BucketKey)
    (m : CurrencyMap) (key : CommodKey) (tr : Transaction) (tot : Rat)
    (table : List Commodity) (ns mn : String) (root : Acct) (isMain : Bool)
    (root' : Acct) (tr' : Transaction)
    (hm : bucketMapFor (runBuckets typedKeys cs) bk = some m)
    (hfind : alistFind? m key = some (tr, tot))
    (hok : create_opening_balance_transaction table ns mn root tr tot isMain
      = .ok (root', tr')) :
    (splitValues tr').sum = 0 := by
  obtain ⟨-, h2⟩ := runBuckets_good typedKeys cs
  obtain ⟨-, hsome, -⟩ := h2 bk m hm
  obtain ⟨-, hsv, htot, -, -⟩ := hsome key tr tot hfind
  have hsp := create_opening_balance_transaction_ok_splits hok
  rw [hsp]
  by_cases h0 : tot = 0
  · rw [if_pos h0, List.append_nil, hsv]
    rw [h0] at htot
    linarith
  · rw [if_neg h0, List.sum_append, hsv, htot]
    simp

theorem opening_balance_conservation_witness :
    (splitValues ⟨[⟨100, "Bank"⟩, ⟨-30, "Loan"⟩, ⟨-70, "Opening Balances"⟩],
      true, some OPENING_DATE, some eur, some "Opening Balance", true⟩).sum
      = 0 := by
  have hrun : runBuckets []
      [⟨ACCT_TYPE_ASSET, 100, ("CURRENCY", "EUR"), "Bank"⟩,
       ⟨ACCT_TYPE_LIABILITY, -30, ("CURRENCY", "EUR"), "Loan"⟩] =
      Buckets.mk []
        [(("CURRENCY", "EUR"),
          (⟨[⟨100, "Bank"⟩, ⟨-30, "Loan"⟩], true, none, none, none, false⟩,
           -70))] := by
    norm_num [runBuckets, recordStep, record_opening_balance, initBuckets,
      bucket_update, alistFind?, alistSet, Transaction_new_begin_edit,
      initialize_split, ACCOUNT_TYPES_TO_OPEN, ACCOUNT_TYPES_TO_OPEN_initial,
      ACCT_TYPE_ASSET, ACCT_TYPE_BANK, ACCT_TYPE_CASH, ACCT_TYPE_CREDIT,
      ACCT_TYPE_LIABILITY, ACCT_TYPE_STOCK, ACCT_TYPE_MUTUAL, ACCT_TYPE_INCOME,
      ACCT_TYPE_EXPENSE, ACCT_TYPE_EQUITY, ACCT_TYPE_RECEIVABLE,
      ACCT_TYPE_PAYABLE, ACCT_TYPE_TRADING]
  have hok : create_opening_balance_transaction [eur] "CURRENCY" "EUR"
      (Acct.node "Root" eur [])
      ⟨[⟨100, "Bank"⟩, ⟨-30, "Loan"⟩], true, none, none, none, false⟩
      (-70) true =
      .ok (Acct.node "Root" eur
          [Acct.node "Equity" eur [Acct.node "Opening Balances" eur []]],
        ⟨[⟨100, "Bank"⟩, ⟨-30, "Loan"⟩, ⟨-70, "Opening Balances"⟩],
          true, some OPENING_DATE, some eur, some "Opening Balance", true⟩) := by
    norm_num [create_opening_balance_transaction, resolve_opening_account,
      find_or_make_account, lookup_by_name, replaceFirst,
      reconstruct_account_name_with_mnemonic, OPENING_BALANCE_ACCOUNT,
      commodPair, Acct.name, Acct.commodity, Acct.children, Acct.withChildren,
      initialize_split, eur]
  exact opening_balance_conservation []
    [⟨ACCT_TYPE_ASSET, 100, ("CURRENCY", "EUR"), "Bank"⟩,
     ⟨ACCT_TYPE_LIABILITY, -30, ("CURRENCY", "EUR"), "Loan"⟩]
    BucketKey.wild
    [(("CURRENCY", "EUR"),
      (⟨[⟨100, "Bank"⟩, ⟨-30, "Loan"⟩], true, none, none, none, false⟩, -70))]
    ("CURRENCY", "EUR")
    ⟨[⟨100, "Bank"⟩, ⟨-30, "Loan"⟩], true, none, none, none, false⟩ (-70)
    [eur] "CURRENCY" "EUR" (Acct.node "Root" eur []) true
    (Acct.node "Root" eur
      [Acct.node "Equity" eur [Acct.node "Opening Balances" eur []]])
    ⟨[⟨100, "Bank"⟩, ⟨-30, "Loan"⟩, ⟨-70, "Opening Balances"⟩],
      true, some OPENING_DATE, some eur, some "Opening Balance", true⟩
    (by rw [hrun]; rfl) rfl hok

theorem Acct.withChildren_name (a : Acct) (ch : List Acct) :
    (a.withChildren ch).name = a.name := by
  cases a
  rfl

theorem Acct.withChildren_commodity (a : Acct) (ch : List Acct) :
    (a.withChildren ch).commodity = a.commodity := by
  cases a
  rfl

theorem Acct.withChildren_children (a : Acct) (ch : List Acct) :
    (a.withChildren ch).children = ch := by
  cases a
  rfl

theorem Acct.withChildren_self (a : Acct) : a.withChildren a.children = a := by
  cases a
  rfl

theorem lookup_by_name_append_none (l : List Acct) (x : Acct) (nm : String)
    (hl : lookup_by_name l nm = none) (hx : x.name = nm) :
    lookup_by_name (l ++ [x]) nm = some x := by
  induction l with
  | nil => simp [lookup_by_name, hx]
  | cons c rest ih =>
    simp only [lookup_by_name] at hl
    by_cases hc : c.name = nm
    · simp [hc] at hl
    · simp only [List.cons_append, lookup_by_name, if_neg hc]
      exact ih (by simpa [hc] using hl)

theorem lookup_by_name_replaceFirst (l : List Acct) (nm : String)
    (c x : Acct) (hl : lookup_by_name l nm = some c) (hx : x.name = nm) :
    lookup_by_name (replaceFirst l nm x) nm = some x := by
  induction l with
  | nil => cases hl
  | cons d rest ih =>
    simp only [lookup_by_name] at hl
    by_cases hd : d.name = nm
    · simp [replaceFirst, hd, lookup_by_name, hx]
    · rw [if_neg hd] at hl
      simp only [replaceFirst, if_neg hd, lookup_by_name]
      exact ih hl

theorem replaceFirst_self_id (l : List Acct) (nm : String) (c : Acct)
    (hl : lookup_by_name l nm = some c) :
    replaceFirst l nm c = l := by
  induction l with
  | nil => rfl
  | cons d rest ih =>
    simp only [lookup_by_name] at hl
    by_cases hd : d.name = nm
    · rw [if_pos hd] at hl
      injection hl with hl
      subst hl
      simp [replaceFirst, hd]
    · rw [if_neg hd] at hl
      simp [replaceFirst, hd, ih hl]

theorem find_or_make_account_fst_name (t : List String) (parent : Acct)
    (currency : Commodity) :
    (find_or_make_account t parent currency).1.name = parent.name := by
  cases t with
  | nil => rfl
  | cons n p =>
    simp only [find_or_make_account]
    cases hlook : lookup_by_name parent.children n with
    | some c =>
      by_cases hp : p = []
      · by_cases hcp : commodPair c.commodity = commodPair currency
        · simp [hp, hcp]
        · simp [hp, hcp]
      · simp [hp, Acct.withChildren_name]
    | none =>
      by_cases hp : p = []
      · simp [hp, Acct.withChildren_name, commodPair, Acct.commodity]
      · simp [hp, Acct.withChildren_name]

theorem find_or_make_account_fst_commodity (t : List String) (parent : Acct)
    (currency : Commodity) :
    (find_or_make_account t parent currency).1.commodity = parent.commodity := by
  cases t with
  | nil => rfl
  | cons n p =>
    simp only [find_or_make_account]
    cases hlook : lookup_by_name parent.children n with
    | some c =>
      by_cases hp : p = []
      · by_cases hcp : commodPair c.commodity = commodPair currency
        · simp [hp, hcp]
        · simp [hp, hcp]
      · simp [hp, Acct.withChildren_commodity]
    | none =>
      by_cases hp : p = []
      · have htriv : commodPair (Acct.node n currency []).commodity =
            commodPair currency := rfl
        simp [hp, htriv, Acct.withChildren_commodity]
      · simp [hp, Acct.withChildren_commodity]

theorem lookupPath_nil_children (a : Acct) (nm : String) (rest : List String)
    (h : a.children = []) : lookupPath a (nm :: rest) = none := by
  simp [lookupPath, h, lookup_by_name]

theorem lookup_by_name_name (l : List Acct) (nm : String) (c : Acct)
    (h : lookup_by_name l nm = some c) : c.name = nm := by
  induction l with
  | nil => cases h
  | cons d rest ih =>
    simp only [lookup_by_name] at h
    by_cases hd : d.name = nm
    · rw [if_pos hd] at h
      injection h with h
      rw [← h]
      exact hd
    · rw [if_neg hd] at h
      exact ih h

/-- C3: `find_or_make_account` walks the path component by component,
creating every missing account along the way with the component's name and
the requested currency as commodity, attached under the previously resolved
node (fourth clause: every nonempty prefix of the path that was missing in
the input tree resolves, in the output tree, to an account carrying the
requested currency); at the leaf it returns the account exactly when the
leaf's `(mnemonic, namespace)` pair equals the requested currency's pair
(second clause), and returns `none` otherwise while leaving the tree
unchanged — in particular it never creates a second, conflicting account at
that path (third clause). -/
theorem find_or_make_account_spec (tuple : List String) (parent : Acct)
    (currency : Commodity) (hne : tuple ≠ []) :
    ∃ leaf,
      lookupPath (find_or_make_account tuple parent currency).1 tuple
        = some leaf ∧
      (commodPair leaf.commodity = commodPair currency →
        (find_or_make_account tuple parent currency).2 = some leaf) ∧
      (commodPair leaf.commodity ≠ commodPair currency →
        (find_or_make_account tuple parent currency).2 = none ∧
        (find_or_make_account tuple parent currency).1 = parent) ∧
      (∀ p, p ≠ [] → (∃ q, p ++ q = tuple) → lookupPath parent p = none →
        ∃ a, lookupPath (find_or_make_account tuple parent currency).1 p
            = some a ∧ a.commodity = currency) := by
  induction tuple generalizing parent with
  | nil => exact absurd rfl hne
  | cons n path ih =>
    by_cases hp : path = []
    · subst hp
      cases hlook : lookup_by_name parent.children n with
      | some c =>
        have hres : find_or_make_account [n] parent currency =
            (if commodPair c.commodity = commodPair currency
              then (parent, some c) else (parent, none)) := by
          simp [find_or_make_account, hlook]
        have hlparent : lookupPath parent [n] = some c := by
          simp [lookupPath, hlook]
        refine ⟨c, ?_, ?_, ?_, ?_⟩
        · by_cases hcp : commodPair c.commodity = commodPair currency <;>
            simp [hres, hcp, hlparent]
        · intro hcp
          simp [hres, hcp]
        · intro hcp
          simp [hres, hcp]
        · intro p hpne hex hnone
          obtain ⟨q, hq⟩ := hex
          cases p with
          | nil => exact absurd rfl hpne
          | cons a as =>
            have ha : a = n ∧ as ++ q = [] := by simpa using hq
            obtain ⟨ha1, ha2⟩ := ha
            have has : as = [] := (List.append_eq_nil.mp ha2).1
            subst ha1
            subst has
            rw [hlparent] at hnone
            cases hnone
      | none =>
        have htriv : commodPair (Acct.node n currency []).commodity =
            commodPair currency := rfl
        have hres : find_or_make_account [n] parent currency =
            (parent.withChildren (parent.children ++ [Acct.node n currency []]),
             some (Acct.node n currency [])) := by
          simp [find_or_make_account, hlook, htriv]
        have hlook2 : lookup_by_name
            (parent.children ++ [Acct.node n currency []]) n =
            some (Acct.node n currency []) :=
          lookup_by_name_append_none _ _ _ hlook rfl
        have hlout : lookupPath
            (find_or_make_account [n] parent currency).1 [n] =
            some (Acct.node n currency []) := by
          rw [hres]
          simp [lookupPath, Acct.withChildren_children, hlook2]
        refine ⟨Acct.node n currency [], hlout, ?_, ?_, ?_⟩
        · intro _
          rw [hres]
        · intro hcp
          exact absurd rfl hcp
        · intro p hpne hex hnone
          obtain ⟨q, hq⟩ := hex
          cases p with
          | nil => exact absurd rfl hpne
          | cons a as =>
            have ha : a = n ∧ as ++ q = [] := by simpa using hq
            obtain ⟨ha1, ha2⟩ := ha
            have has : as = [] := (List.append_eq_nil.mp ha2).1
            subst ha1
            subst has
            exact ⟨Acct.node a currency [], hlout, rfl⟩
    · cases hlook : lookup_by_name parent.children n with
      | some c =>
        have hcn : c.name = n := lookup_by_name_name _ _ _ hlook
        have hres : find_or_make_account (n :: path) parent currency =
            (parent.withChildren (replaceFirst parent.children n
              (find_or_make_account path c currency).1),
             (find_or_make_account path c currency).2) := by
          simp [find_or_make_account, hlook, hp]
        obtain ⟨leaf, hlp, hmatch, hmismatch, hprefix⟩ := ih c hp
        have hname : (find_or_make_account path c currency).1.name = n := by
          rw [find_or_make_account_fst_name]
          exact hcn
        have hlook2 : lookup_by_name (replaceFirst parent.children n
            (find_or_make_account path c currency).1) n =
            some (find_or_make_account path c currency).1 :=
          lookup_by_name_replaceFirst _ _ _ _ hlook hname
        refine ⟨leaf, ?_, ?_, ?_, ?_⟩
        · rw [hres]
          simp [lookupPath, Acct.withChildren_children, hlook2, hp, hlp]
        · intro hcp
          rw [hres]
          exact hmatch hcp
        · intro hcp
          obtain ⟨h2none, h1eq⟩ := hmismatch hcp
          rw [hres]
          refine ⟨h2none, ?_⟩
          show parent.withChildren _ = parent
          rw [h1eq, replaceFirst_self_id _ _ _ hlook, Acct.withChildren_self]
        · intro p hpne hex hnone
          obtain ⟨q, hq⟩ := hex
          cases p with
          | nil => exact absurd rfl hpne
          | cons a as =>
            have ha : a = n ∧ as ++ q = path := by simpa using hq
            obtain ⟨ha1, ha2⟩ := ha
            subst ha1
            by_cases has : as = []
            · subst has
              rw [show lookupPath parent [a] = some c by
                simp [lookupPath, hlook]] at hnone
              cases hnone
            · have hnonec : lookupPath c as = none := by
                rw [show lookupPath parent (a :: as) = lookupPath c as by
                  simp [lookupPath, hlook, has]] at hnone
                exact hnone
              obtain ⟨a2, ha2l, hc2⟩ := hprefix as has ⟨q, ha2⟩ hnonec
              refine ⟨a2, ?_, hc2⟩
              rw [hres]
              simp [lookupPath, Acct.withChildren_children, hlook2, has, ha2l]
      | none =>
        have hres : find_or_make_account (n :: path) parent currency =
            (parent.withChildren (parent.children ++
              [(find_or_make_account path (Acct.node n currency []) currency).1]),
             (find_or_make_account path (Acct.node n currency []) currency).2) := by
          simp [find_or_make_account, hlook, hp]
        obtain ⟨leaf, hlp, hmatch, hmismatch, hprefix⟩ :=
          ih (Acct.node n currency []) hp
        have hname :
            (find_or_make_account path (Acct.node n currency []) currency).1.name
              = n := by
          rw [find_or_make_account_fst_name]
          rfl
        have hlook2 : lookup_by_name (parent.children ++
            [(find_or_make_account path (Acct.node n currency []) currency).1]) n
            = some (find_or_make_account path (Acct.node n currency []) currency).1 :=
          lookup_by_name_append_none _ _ _ hlook hname
        have hnonefresh : lookupPath (Acct.node n currency []) path = none := by
          cases path with
          | nil => exact absurd rfl hp
          | cons x xs => exact lookupPath_nil_children _ x xs rfl
        refine ⟨leaf, ?_, ?_, ?_, ?_⟩
        · rw [hres]
          simp [lookupPath, Acct.withChildren_children, hlook2, hp, hlp]
        · intro hcp
          rw [hres]
          exact hmatch hcp
        · intro hcp
          exfalso
          obtain ⟨a, ha, hacur⟩ := hprefix path hp ⟨[], by simp⟩ hnonefresh
          rw [hlp] at ha
          injection ha with ha
          subst ha
          exact hcp (by rw [hacur])
        · intro p hpne hex hnone
          obtain ⟨q, hq⟩ := hex
          cases p with
          | nil => exact absurd rfl hpne
          | cons a as =>
            have ha : a = n ∧ as ++ q = path := by simpa using hq
            obtain ⟨ha1, ha2⟩ := ha
            subst ha1
            by_cases has : as = []
            · subst has
              refine ⟨(find_or_make_account path (Acct.node a currency []) currency).1,
                ?_, ?_⟩
              · rw [hres]
                simp [lookupPath, Acct.withChildren_children, hlook2]
              · rw [find_or_make_account_fst_commodity]
                rfl
            · have hnoneas : lookupPath (Acct.node a currency []) as = none := by
                cases as with
                | nil => exact absurd rfl has
                | cons x xs => exact lookupPath_nil_children _ x xs rfl
              obtain ⟨a2, ha2l, hc2⟩ := hprefix as has ⟨q, ha2⟩ hnoneas
              refine ⟨a2, ?_, hc2⟩
              rw [hres]
              simp [lookupPath, Acct.withChildren_children, hlook2, has, ha2l]

theorem find_or_make_account_spec_witness :
    (["Equity", "Opening Balances"] : List String) ≠ [] ∧
    (∃ leaf,
      lookupPath (find_or_make_account ["Equity", "Opening Balances"]
          (Acct.node "Root" eur []) eur).1 ["Equity", "Opening Balances"]
        = some leaf ∧
      (commodPair leaf.commodity = commodPair eur →
        (find_or_make_account ["Equity", "Opening Balances"]
          (Acct.node "Root" eur []) eur).2 = some leaf) ∧
      (commodPair leaf.commodity ≠ commodPair eur →
        (find_or_make_account ["Equity", "Opening Balances"]
          (Acct.node "Root" eur []) eur).2 = none ∧
        (find_or_make_account ["Equity", "Opening Balances"]
          (Acct.node "Root" eur []) eur).1 = Acct.node "Root" eur []) ∧
      (∀ p, p ≠ [] → (∃ q, p ++ q = ["Equity", "Opening Balances"]) →
        lookupPath (Acct.node "Root" eur []) p = none →
        ∃ a, lookupPath (find_or_make_account ["Equity", "Opening Balances"]
            (Acct.node "Root" eur []) eur).1 p = some a ∧
          a.commodity = eur)) :=
  ⟨by decide,
   find_or_make_account_spec ["Equity", "Opening Balances"]
     (Acct.node "Root" eur []) eur (by decide)⟩

/-- C4: with `is_main_currency` true, `create_opening_balance_transaction`
first attempts the canonical `OPENING_BALANCE_ACCOUNT` path; when that
resolution returns `None` (the hypothesis `h1`), its entire outcome is
determined by exactly one further resolution, at the mnemonic-suffixed
path: if that second resolution also returns `None` the function raises the
fatal `AccountConflictError` (the bare `Exception` of
`choke_on_none_for_no_account`), and otherwise it proceeds with the second
resolution's account — there is no third attempt. -/
theorem second_resolution_failure_is_fatal
    (commodtable : List Commodity) (ns mn : String) (root : Acct)
    (openingTrans : Transaction) (openingAmount : Rat) (currency : Commodity)
    (hcur : commodtable.find? (fun c =>
      decide (c.namespace_ = ns ∧ c.mnemonic = mn)) = some currency)
    (h1 : (find_or_make_account OPENING_BALANCE_ACCOUNT root currency).2
      = none) :
    create_opening_balance_transaction commodtable ns mn root openingTrans
        openingAmount true =
      match (find_or_make_account
          (reconstruct_account_name_with_mnemonic OPENING_BALANCE_ACCOUNT mn)
          (find_or_make_account OPENING_BALANCE_ACCOUNT root currency).1
          currency).2 with
      | none => .error (PyErr.accountConflictError
          ("account currency and name mismatch, " ++ String.intercalate ", "
            (reconstruct_account_name_with_mnemonic OPENING_BALANCE_ACCOUNT mn)))
      | some openingAccount => .ok
          ((find_or_make_account
            (reconstruct_account_name_with_mnemonic OPENING_BALANCE_ACCOUNT mn)
            (find_or_make_account OPENING_BALANCE_ACCOUNT root currency).1
            currency).1,
          { (if openingAmount ≠ 0 then
              initialize_split openingAmount openingAccount.name openingTrans
            else openingTrans) with
            date := some OPENING_DATE, currency := some currency,
            description := some "Opening Balance", committed := true }) := by
  have hresolve : resolve_opening_account root currency
      (reconstruct_account_name_with_mnemonic OPENING_BALANCE_ACCOUNT mn) true =
      find_or_make_account
        (reconstruct_account_name_with_mnemonic OPENING_BALANCE_ACCOUNT mn)
        (find_or_make_account OPENING_BALANCE_ACCOUNT root currency).1
        currency := by
    simp [resolve_opening_account, h1]
  simp only [create_opening_balance_transaction, hcur, hresolve]

theorem second_resolution_failure_is_fatal_witness :
    create_opening_balance_transaction [eur] "CURRENCY" "EUR"
        (Acct.node "Root" gbp
          [Acct.node "Equity" gbp
            [Acct.node "Opening Balances" gbp [],
             Acct.node "Opening Balances - EUR" gbp []]])
        Transaction_new_begin_edit 5 true =
      .error (PyErr.accountConflictError
        "account currency and name mismatch, Equity, Opening Balances - EUR") := by
  have h := second_resolution_failure_is_fatal [eur] "CURRENCY" "EUR"
    (Acct.node "Root" gbp
      [Acct.node "Equity" gbp
        [Acct.node "Opening Balances" gbp [],
         Acct.node "Opening Balances - EUR" gbp []]])
    Transaction_new_begin_edit 5 eur rfl rfl
  rw [h]
  rfl

/-- C8 counterexample: when the running total is exactly zero, the claim
says the opening-balance account is never touched and in particular not
created; but on a destination root that lacks `Equity:Opening Balances`,
finalizing a zero-total transaction still creates that account — the input
tree has no account at the path, the call succeeds (with no split added),
and the output tree has a freshly created account there. -/
theorem create_zero_total_still_creates_account :
    lookupPath (Acct.node "Root" eur []) OPENING_BALANCE_ACCOUNT = none ∧
    create_opening_balance_transaction [eur] "CURRENCY" "EUR"
        (Acct.node "Root" eur []) Transaction_new_begin_edit 0 true =
      .ok (Acct.node "Root" eur
          [Acct.node "Equity" eur [Acct.node "Opening Balances" eur []]],
        ⟨[], true, some OPENING_DATE, some eur, some "Opening Balance", true⟩) ∧
    lookupPath (Acct.node "Root" eur
        [Acct.node "Equity" eur [Acct.node "Opening Balances" eur []]])
        OPENING_BALANCE_ACCOUNT =
      some (Acct.node "Opening Balances" eur []) :=
  ⟨rfl, rfl, rfl⟩

/-- C8 (amended): when a bucket's running total is exactly zero at
finalization, the Materializer adds no split — the finalized transaction's
split list equals the incoming one — and still sets the transaction's date,
currency and description and commits it; however, the opening-balance
account is still resolved first (and is created when missing, see the
counterexample), rather than left untouched. -/
theorem create_zero_total_no_split
    (commodtable : List Commodity) (ns mn : String) (root : Acct)
    (openingTrans : Transaction) (isMain : Bool) (root' : Acct)
    (tr' : Transaction)
    (h : create_opening_balance_transaction commodtable ns mn root
      openingTrans 0 isMain = .ok (root', tr')) :
    tr'.splits = openingTrans.splits ∧
    tr'.date = some OPENING_DATE ∧
    tr'.description = some "Opening Balance" ∧
    tr'.committed = true ∧
    ∃ c, commodtable.find? (fun c =>
        decide (c.namespace_ = ns ∧ c.mnemonic = mn)) = some c ∧
      tr'.currency = some c := by
  cases hcur : commodtable.find? (fun c =>
      decide (c.namespace_ = ns ∧ c.mnemonic = mn)) with
  | none =>
    simp only [create_opening_balance_transaction, hcur] at h
    cases h
  | some currency =>
    simp only [create_opening_balance_transaction, hcur] at h
    cases hres : (resolve_opening_account root currency
        (reconstruct_account_name_with_mnemonic OPENING_BALANCE_ACCOUNT mn)
        isMain).2 with
    | none =>
      rw [hres] at h
      cases h
    | some acct =>
      rw [hres] at h
      injection h with hpair
      injection hpair with h1 h2
      subst h2
      refine ⟨by simp, rfl, rfl, rfl, currency, rfl, rfl⟩

theorem create_zero_total_no_split_witness :
    Transaction.splits ⟨[], true, some OPENING_DATE, some eur,
        some "Opening Balance", true⟩ =
      Transaction.splits Transaction_new_begin_edit ∧
    Transaction.date ⟨[], true, some OPENING_DATE, some eur,
        some "Opening Balance", true⟩ = some OPENING_DATE ∧
    Transaction.description ⟨[], true, some OPENING_DATE, some eur,
        some "Opening Balance", true⟩ = some "Opening Balance" ∧
    Transaction.committed ⟨[], true, some OPENING_DATE, some eur,
        some "Opening Balance", true⟩ = true ∧
    ∃ c, ([eur].find? (fun c =>
        decide (c.namespace_ = "CURRENCY" ∧ c.mnemonic = "EUR"))) = some c ∧
      Transaction.currency ⟨[], true, some OPENING_DATE, some eur,
        some "Opening Balance", true⟩ = some c :=
  create_zero_total_no_split [eur] "CURRENCY" "EUR" (Acct.node "Root" eur [])
    Transaction_new_begin_edit true
    (Acct.node "Root" eur
      [Acct.node "Equity" eur [Acct.node "Opening Balances" eur []]])
    ⟨[], true, some OPENING_DATE, some eur, some "Opening Balance", true⟩ rfl

theorem srcShape_node (nm : String) (ty : Int)
    (de no co col : String) (tax pl : Bool) (cm : Commodity) (bal : Rat)
    (ch : List SrcAcct) :
    (SrcAcct.node nm ty de no co col tax pl cm bal ch).shape =
      Shape.node nm ty de no co tax pl (ch.map SrcAcct.shape) := by
  rw [SrcAcct.shape]
  simp [List.attach_map_val]

theorem dShape_node (nm : String) (ty : Int)
    (de no co col : String) (tax pl : Bool) (cm : Commodity)
    (ch : List DAcct) :
    (DAcct.node nm ty de no co col tax pl cm ch).shape =
      Shape.node nm ty de no co tax pl (ch.map DAcct.shape) := by
  rw [DAcct.shape]
  simp [List.attach_map_val]

theorem contribsOf_cons (nm : String) (ty : Int)
    (de no co col : String) (tax pl : Bool) (cm : Commodity) (bal : Rat)
    (ch rest : List SrcAcct) :
    contribsOf (SrcAcct.node nm ty de no co col tax pl cm bal ch :: rest) =
      toContribution (SrcAcct.node nm ty de no co col tax pl cm bal ch) ::
        (contribsOf ch ++ contribsOf rest) := by
  simp [contribsOf, preorderList]

/-- C5: replication is depth-first pre-order; for every child of the source
root, the destination account copies the attribute set name, type,
description, notes, code, tax-related, placeholder verbatim (first clause:
the destination forest's shapes equal the source forest's shapes, so names
and parent/child edges are isomorphic and the root itself is never
duplicated — only the source root's descendants are produced); and the
balance accumulator is invoked exactly once per account, in depth-first
pre-order (second clause: the resulting bucket state is the left fold of
`record_opening_balance` over the pre-order traversal of the source
forest). -/
theorem recursively_build_account_tree_spec (cs : List SrcAcct)
    (st : BuildState) :
    ((recursively_build_account_tree cs st).1.map DAcct.shape
        = cs.map SrcAcct.shape) ∧
    ((recursively_build_account_tree cs st).2.buckets
        = List.foldl recordStep st.buckets (contribsOf cs)) := by
  induction cs, st using recursively_build_account_tree.induct with
  | case1 st =>
    simp [recursively_build_account_tree, contribsOf, preorderList]
  | case2 nm ty de no co col tax pl cm bal ch rest st e b1 rc ihlet ihc ihr =>
    simp only [recursively_build_account_tree]
    unfold rc e b1 at ihr
    constructor
    · simp only [List.map_cons, dShape_node, srcShape_node]
      rw [ihc.1, ihr.1]
    · rw [contribsOf_cons, List.foldl_cons, List.foldl_append, ihr.2, ihc.2]
      rfl

/-- C10 counterexample: the claim fails at the function's own declared
default `accounts=None` (line 411): line 451 iterates `accounts`, so this
input raises `TypeError` before `recursively_build_account_tree` ever
runs — the run neither replicates the tree nor raises a `NameError`. -/
theorem duplicate_default_accounts_raises_type_error :
    (duplicate_with_opening_balance
        [SrcAcct.node "Bank" 0 "" "" "" "" false false eur 100 []]
        none [eur]).err =
      some (PyErr.typeError "argument of type NoneType is not iterable") ∧
    (duplicate_with_opening_balance
        [SrcAcct.node "Bank" 0 "" "" "" "" false false eur 100 []]
        none [eur]).destChildren = [] :=
  ⟨rfl, rfl⟩

/-- C10 (amended): for every input whose `accounts` argument is a mapping
with valid account-type names (the hypothesis `hkeys`; `main` always
supplies `{"asset": ..., "liability": ...}`), `duplicate_with_opening_balance`
raises a `NameError` after the account tree has been replicated and the
balance report printed (printing has no state effect) and before any
opening-balance transaction is finalized or any business entity is cloned:
the names `get_main_currency`, `PREFERRED_CURRENCY` and `PREFERED_CURRENCY`
that the finalization code (lines 474-496) references are bound neither in
`jahreswechsel.py` nor in `gnucash_tools/business.py` — only
`PREFERED_CURRENCY_FOR_SIMPLE_OPENING_BALANCE` is — so evaluating
`get_main_currency` at line 474 fails.  (With the declared default
`accounts=None`, or an unknown type name, the run instead fails earlier,
at lines 450-452, before any replication: see the counterexample.) -/
theorem duplicate_with_opening_balance_raises_name_error
    (srcChildren : List SrcAcct) (typenames : List String)
    (table0 : List Commodity) (typedKeys : List Int)
    (hkeys : shortname_keys typenames = .ok typedKeys) :
    "get_main_currency" ∉ moduleGlobals ∧
    "PREFERRED_CURRENCY" ∉ moduleGlobals ∧
    "PREFERED_CURRENCY" ∉ moduleGlobals ∧
    "get_main_currency" ∉ businessModuleGlobals ∧
    "PREFERRED_CURRENCY" ∉ businessModuleGlobals ∧
    "PREFERED_CURRENCY" ∉ businessModuleGlobals ∧
    "PREFERED_CURRENCY_FOR_SIMPLE_OPENING_BALANCE" ∈ moduleGlobals ∧
    (duplicate_with_opening_balance srcChildren (some typenames) table0).err =
      some (PyErr.nameError "get_main_currency") ∧
    (duplicate_with_opening_balance srcChildren (some typenames)
      table0).finalized = [] ∧
    (duplicate_with_opening_balance srcChildren (some typenames)
      table0).businessCloned = false ∧
    (duplicate_with_opening_balance srcChildren (some typenames)
      table0).destChildren
      = (recursively_build_account_tree srcChildren
          ⟨table0, initBuckets typedKeys⟩).1 := by
  have hmem : "get_main_currency" ∉ moduleGlobals := by decide
  refine ⟨hmem, by decide, by decide, by decide, by decide, by decide,
    by decide, ?_, ?_, ?_, ?_⟩ <;>
    simp [duplicate_with_opening_balance, hkeys, hmem, initBuckets]

theorem duplicate_with_opening_balance_raises_name_error_witness :
    "get_main_currency" ∉ moduleGlobals ∧
    "PREFERRED_CURRENCY" ∉ moduleGlobals ∧
    "PREFERED_CURRENCY" ∉ moduleGlobals ∧
    "get_main_currency" ∉ businessModuleGlobals ∧
    "PREFERRED_CURRENCY" ∉ businessModuleGlobals ∧
    "PREFERED_CURRENCY" ∉ businessModuleGlobals ∧
    "PREFERED_CURRENCY_FOR_SIMPLE_OPENING_BALANCE" ∈ moduleGlobals ∧
    (duplicate_with_opening_balance
        [SrcAcct.node "Bank" 0 "" "" "" "" false false eur 100 []]
        (some ["asset", "liability"]) [eur]).err =
      some (PyErr.nameError "get_main_currency") ∧
    (duplicate_with_opening_balance
        [SrcAcct.node "Bank" 0 "" "" "" "" false false eur 100 []]
        (some ["asset", "liability"]) [eur]).finalized = [] ∧
    (duplicate_with_opening_balance
        [SrcAcct.node "Bank" 0 "" "" "" "" false false eur 100 []]
        (some ["asset", "liability"]) [eur]).businessCloned = false ∧
    (duplicate_with_opening_balance
        [SrcAcct.node "Bank" 0 "" "" "" "" false false eur 100 []]
        (some ["asset", "liability"]) [eur]).destChildren
      = (recursively_build_account_tree
          [SrcAcct.node "Bank" 0 "" "" "" "" false false eur 100 []]
          ⟨[eur], initBuckets [ACCT_TYPE_ASSET, ACCT_TYPE_LIABILITY]⟩).1 :=
  duplicate_with_opening_balance_raises_name_error
    [SrcAcct.node "Bank" 0 "" "" "" "" false false eur 100 []]
    ["asset", "liability"] [eur] [ACCT_TYPE_ASSET, ACCT_TYPE_LIABILITY] rfl

/-- C2 (evaluation at a failing input): with a source book holding a single
bank account with balance 100 EUR and the `accounts` mapping `main`
supplies (keys "asset" and "liability"), the run dies with
`NameError("get_main_currency")` before the finalization loop, so no
currency — preferred or first-encountered — is ever granted any
opening-balance path (canonical or suffixed): nothing is finalized and no
business entity is cloned. -/
theorem duplicate_run_grants_no_opening_path :
    (duplicate_with_opening_balance
        [SrcAcct.node "Bank" 0 "" "" "" "" false false eur 100 []]
        (some ["asset", "liability"]) [eur]).err =
      some (PyErr.nameError "get_main_currency") ∧
    (duplicate_with_opening_balance
        [SrcAcct.node "Bank" 0 "" "" "" "" false false eur 100 []]
        (some ["asset", "liability"]) [eur]).finalized = [] ∧
    (duplicate_with_opening_balance
        [SrcAcct.node "Bank" 0 "" "" "" "" false false eur 100 []]
        (some ["asset", "liability"]) [eur]).businessCloned = false := by
  have hmem : "get_main_currency" ∉ moduleGlobals := by decide
  have hkeys : shortname_keys ["asset", "liability"]
      = .ok [ACCT_TYPE_ASSET, ACCT_TYPE_LIABILITY] := rfl
  exact ⟨by simp [duplicate_with_opening_balance, hkeys, hmem],
    by simp [duplicate_with_opening_balance, hkeys],
    by simp [duplicate_with_opening_balance, hkeys]⟩

/-- C7: commodity bridging is idempotent and duplicate-free: after one
`ensure_commodity` step for a commodity, a second step for any commodity
with the same `(namespace, mnemonic)` pair returns the same destination
table (no second insertion) and the same destination commodity; the first
step for a pair absent from the table appends exactly one clone; and a table
whose `(namespace, mnemonic)` pairs are distinct keeps distinct pairs, so
the destination table never holds two commodities with the same pair. -/
theorem ensure_commodity_idempotent
    (table : List Commodity) (a b : Commodity)
    (hns : b.namespace_ = a.namespace_) (hmn : b.mnemonic = a.mnemonic) :
    (ensure_commodity (ensure_commodity table a).1 b).1
      = (ensure_commodity table a).1 ∧
    (ensure_commodity (ensure_commodity table a).1 b).2
      = (ensure_commodity table a).2 ∧
    (table.find? (fun c => decide (c.namespace_ = a.namespace_ ∧
        c.mnemonic = a.mnemonic)) = none →
      (ensure_commodity table a).1 = table ++ [a]) ∧
    ((table.map (fun c => (c.namespace_, c.mnemonic))).Nodup →
      (((ensure_commodity table a).1).map
        (fun c => (c.namespace_, c.mnemonic))).Nodup) := by
  cases hfind : table.find? (fun c => decide (c.namespace_ = a.namespace_ ∧
      c.mnemonic = a.mnemonic)) with
  | some c =>
    have he : ensure_commodity table a = (table, c) := by
      unfold ensure_commodity
      rw [hfind]
    have hfindb : table.find? (fun c => decide (c.namespace_ = b.namespace_ ∧
        c.mnemonic = b.mnemonic)) = some c := by
      rw [hns, hmn]
      exact hfind
    have he2 : ensure_commodity table b = (table, c) := by
      unfold ensure_commodity
      rw [hfindb]
    rw [he]
    refine ⟨by rw [he2], by rw [he2], ?_, fun hnd => hnd⟩
    intro hnone
    cases hnone
  | none =>
    have he : ensure_commodity table a = (table ++ [a], a) := by
      unfold ensure_commodity
      rw [hfind]
    have hfindb : table.find? (fun c => decide (c.namespace_ = b.namespace_ ∧
        c.mnemonic = b.mnemonic)) = none := by
      rw [hns, hmn]
      exact hfind
    have hfindb2 : (table ++ [a]).find? (fun c =>
        decide (c.namespace_ = b.namespace_ ∧ c.mnemonic = b.mnemonic))
        = some a := by
      rw [List.find?_append, hfindb]
      simp [List.find?, hns, hmn]
    have he2 : ensure_commodity (table ++ [a]) b = (table ++ [a], a) := by
      unfold ensure_commodity
      rw [hfindb2]
    rw [he]
    refine ⟨by rw [he2], by rw [he2], fun _ => rfl, fun hnd => ?_⟩
    have hnotmem : ∀ c ∈ table, ¬((c.namespace_, c.mnemonic)
        = (a.namespace_, a.mnemonic)) := by
      intro c hc hpair
      have := List.find?_eq_none.mp hfind c hc
      simp only [Prod.mk.injEq] at hpair
      simp [hpair.1, hpair.2] at this
    simp only [List.map_append, List.map_cons, List.map_nil]
    rw [List.nodup_append]
    refine ⟨hnd, List.nodup_singleton _, ?_⟩
    intro x hx hx2
    simp only [List.mem_singleton] at hx2
    subst hx2
    obtain ⟨c, hc, hcx⟩ := List.mem_map.mp hx
    exact hnotmem c hc hcx

theorem ensure_commodity_idempotent_witness :
    (ensure_commodity (ensure_commodity [] eur).1
        ⟨"CURRENCY", "EUR", "Euro clone"⟩).1 = (ensure_commodity [] eur).1 ∧
    (ensure_commodity (ensure_commodity [] eur).1
        ⟨"CURRENCY", "EUR", "Euro clone"⟩).2 = (ensure_commodity [] eur).2 ∧
    (([] : List Commodity).find? (fun c =>
        decide (c.namespace_ = eur.namespace_ ∧ c.mnemonic = eur.mnemonic))
        = none →
      (ensure_commodity [] eur).1 = [] ++ [eur]) ∧
    ((([] : List Commodity).map (fun c => (c.namespace_, c.mnemonic))).Nodup →
      (((ensure_commodity [] eur).1).map
        (fun c => (c.namespace_, c.mnemonic))).Nodup) :=
  ensure_commodity_idempotent [] eur ⟨"CURRENCY", "EUR", "Euro clone"⟩ rfl rfl
